import Mathlib

/-!
Shallow embedding of the token-accounting core of the `greener` browser
extension: the `GPTTokenizer` class of `src/lib/gpt-tokenizer.js` and the
conversation accumulator of the `ChatGPTTokenTracker` content script.

Text is modelled as `List Char`.  Token counts are `ℕ`; the JS floating-point
ceilings `Math.ceil(x / 4)`, `Math.ceil(w * 1.3)` and `Math.ceil(s * 0.5)`
are exact for these operands and are embedded as the exact natural-number
ceilings.  Prices are exact rationals `ℚ`.
-/

/-- The JS regex `\s` / `String.prototype.trim` whitespace class (the core
ASCII part, which is all the tracker ever meets). -/
def jsSpace (c : Char) : Bool :=
  c = ' ' || c = '\t' || c = '\n' || c = '\r' || c = '\x0b' || c = '\x0c'

/-- The JS regex `\w` word-character class `[A-Za-z0-9_]`. -/
def jsWordChar (c : Char) : Bool :=
  ('a' ≤ c && c ≤ 'z') || ('A' ≤ c && c ≤ 'Z') || ('0' ≤ c && c ≤ '9') || c = '_'

/-- JS `String.prototype.toLowerCase`, per character (basic-latin part;
`Char.toLower` is exactly the `A`–`Z` shift used by the markers involved). -/
def toLowerJS (l : List Char) : List Char := l.map Char.toLower

/-- Left half of `text.trim()`: drop leading whitespace. -/
def ltrim (l : List Char) : List Char := l.dropWhile jsSpace

/-- Right half of `text.trim()`: drop trailing whitespace. -/
def rtrim (l : List Char) : List Char := (l.reverse.dropWhile jsSpace).reverse

/-- JS `text.trim()`. -/
def jsTrim (l : List Char) : List Char := rtrim (ltrim l)

/-- JS `text.replace(/\s+/g, ' ')`: every maximal whitespace run becomes one
space (emitted at the last character of the run). -/
def collapse : List Char → List Char
  | [] => []
  | c :: rest =>
    if jsSpace c then
      match rest with
      | d :: _ => if jsSpace d then collapse rest else ' ' :: collapse rest
      | [] => [' ']
    else c :: collapse rest

/-- JS `normalizedText.split(/\s+/).filter(word => word.length > 0)`. -/
def words (l : List Char) : List (List Char) :=
  (l.splitOnP jsSpace).filter (fun w => !w.isEmpty)

/-- One entry of the `this.modelConfigs` table of `GPTTokenizer`. -/
structure ModelConfig where
  avgCharsPerToken : ℕ
  maxTokens : ℕ
  costPer1kInput : ℚ
  costPer1kOutput : ℚ
deriving DecidableEq

/-- The `'gpt-4o'` entry, which is also the designated default profile. -/
def gpt4oConfig : ModelConfig := ⟨4, 128000, 5/1000, 15/1000⟩

/-- `this.modelConfigs` from the `GPTTokenizer` constructor. -/
def modelConfigs (model : String) : Option ModelConfig :=
  if model = "gpt-4" then some ⟨4, 8192, 3/100, 6/100⟩
  else if model = "gpt-4o" then some gpt4oConfig
  else if model = "gpt-4-turbo" then some ⟨4, 128000, 1/100, 3/100⟩
  else if model = "gpt-3.5-turbo" then some ⟨4, 4096, 15/10000, 2/1000⟩
  else none

/-- `this.defaultModel = 'gpt-4o'`. -/
def defaultModel : String := "gpt-4o"

/-- `this.modelConfigs[model] || this.modelConfigs[this.defaultModel]`
(the fallback is the `'gpt-4o'` entry). -/
def getModelConfig (model : String) : ModelConfig :=
  (modelConfigs model).getD gpt4oConfig

/-- `GPTTokenizer.encode` (src/lib/gpt-tokenizer.js lines 46-69).  The guard
`if (!text || typeof text !== 'string') return 0` reduces, for string input,
to the empty-string test; non-string input is handled by `encodeVal` below. -/
def encode (text : List Char) (model : String) : ℕ :=
  if text.isEmpty then 0
  else
    let config := getModelConfig model
    let normalizedText := collapse (jsTrim text)
    let wrds := words normalizedText
    let specialChars := (normalizedText.filter (fun c => !jsWordChar c && !jsSpace c)).length
    let charBasedEstimate :=
      (normalizedText.length + (config.avgCharsPerToken - 1)) / config.avgCharsPerToken
    let wordBasedEstimate := (13 * wrds.length + 9) / 10
    let specialCharTokens := (specialChars + 1) / 2
    max charBasedEstimate (wordBasedEstimate + specialCharTokens)

/-- A chat message object as `encodeChat` reads it: `none` in a field models an
absent (or falsy, hence skipped) `role` / `content` / `name` property. -/
structure ChatMessage where
  role : Option (List Char)
  content : Option (List Char)
  name : Option (List Char)
deriving DecidableEq

/-- One iteration of the `for (const message of messages)` loop of
`GPTTokenizer.encodeChat`: `continue` on a non-object entry, else add the
structural 4 plus the estimates of the `role`, `content` and (with an extra 1)
`name` fields that are present. -/
def chatStep (model : String) (totalTokens : ℕ) (msg : Option ChatMessage) : ℕ :=
  match msg with
  | none => totalTokens
  | some message =>
    let t1 := totalTokens + 4
    let t2 := match message.role with | some r => t1 + encode r model | none => t1
    let t3 := match message.content with | some ct => t2 + encode ct model | none => t2
    match message.name with | some nm => t3 + encode nm model + 1 | none => t3

/-- `GPTTokenizer.encodeChat` (src/lib/gpt-tokenizer.js lines 77-111) on an
array argument.  A `none` entry models a `null` / non-object element, skipped
by `if (!message || typeof message !== 'object') continue`. -/
def encodeChat (messages : List (Option ChatMessage)) (model : String) : ℕ :=
  (messages.foldl (chatStep model) 4) + 2

/-- `encodeChat`'s outer guard `if (!Array.isArray(messages)) return 0`;
`none` models a non-array argument. -/
def encodeChatTop (messages : Option (List (Option ChatMessage))) (model : String) : ℕ :=
  match messages with
  | none => 0
  | some msgs => encodeChat msgs model

/-- `GPTTokenizer.calculateCost` (src/lib/gpt-tokenizer.js lines 129-134). -/
def calculateCost (inputTokens outputTokens : ℕ) (model : String) : ℚ :=
  let config := getModelConfig model
  (inputTokens : ℚ) / 1000 * config.costPer1kInput +
    (outputTokens : ℚ) / 1000 * config.costPer1kOutput

/-- `needle` occurs at the start of `hay` (helper for `jsIncludes`). -/
def leadsWith : List Char → List Char → Bool
  | [], _ => true
  | _ :: _, [] => false
  | a :: as, b :: bs => a = b && leadsWith as bs

/-- JS `hay.includes(needle)` on strings. -/
def jsIncludes : List Char → List Char → Bool
  | [], needle => leadsWith needle []
  | c :: t, needle => leadsWith needle (c :: t) || jsIncludes t needle

/-- `GPTTokenizer.detectModel` (src/lib/gpt-tokenizer.js lines 141-150). -/
def detectModel (text : List Char) : String :=
  let lowerText := toLowerJS text
  if jsIncludes lowerText "gpt-4o".toList then "gpt-4o"
  else if jsIncludes lowerText "gpt-4-turbo".toList ||
      jsIncludes lowerText "gpt-4 turbo".toList then "gpt-4-turbo"
  else if jsIncludes lowerText "gpt-4".toList then "gpt-4"
  else if jsIncludes lowerText "gpt-3.5".toList ||
      jsIncludes lowerText "gpt-3.5-turbo".toList then "gpt-3.5-turbo"
  else defaultModel

/-- A JavaScript value, as far as the tokenizer's input guards distinguish it. -/
inductive JSVal where
  | str (s : List Char)
  | num (q : ℚ)
  | boolean (b : Bool)
  | jsNull
  | undef
deriving DecidableEq

/-- `encode` applied to a raw value: the guard
`if (!text || typeof text !== 'string') return 0` sends every non-string to 0. -/
def encodeVal (text : JSVal) (model : String) : ℕ :=
  match text with
  | .str s => encode s model
  | _ => 0

/-- `detectModel` applied to a raw value: the body starts with
`text.toLowerCase()` and has no guard, so every non-string argument raises a
`TypeError` (modelled as `Except.error ()`). -/
def detectModelVal (text : JSVal) : Except Unit String :=
  match text with
  | .str s => Except.ok (detectModel s)
  | _ => Except.error ()

/-- An observed message as recorded by the tracker; only the dedup key
`(role, content)` matters to the accounting. -/
structure Message where
  role : List Char
  content : List Char
deriving DecidableEq

/-- `this.currentConversation` of `ChatGPTTokenTracker` (the fields the
accounting touches). -/
structure Conversation where
  messages : List Message
  totalInputTokens : ℕ
  totalOutputTokens : ℕ
  totalCost : ℚ
  model : String
  urlId : Option (List Char)
deriving DecidableEq

/-- One iteration of the `messages.forEach` loop of
`ChatGPTTokenTracker.processMessages`, threading the mutated conversation and
the `hasNewMessages` flag. -/
def processStep (st : Conversation × Bool) (message : Message) : Conversation × Bool :=
  let c := st.1
  if c.messages.any (fun existing =>
      existing.content == message.content && existing.role == message.role) then st
  else
    let tokens := encode message.content c.model
    ({ c with
        messages := c.messages ++ [message]
        totalInputTokens :=
          if message.role = "user".toList then c.totalInputTokens + tokens
          else c.totalInputTokens
        totalOutputTokens :=
          if message.role = "assistant".toList then c.totalOutputTokens + tokens
          else c.totalOutputTokens },
      true)

/-- `ChatGPTTokenTracker.processMessages` (src/unnamed/part_000 lines 509-546):
the ingest operation.  Returns the updated conversation and `hasNewMessages`. -/
def processMessages (conv : Conversation) (msgs : List Message) : Conversation × Bool :=
  let r := msgs.foldl processStep (conv, false)
  if r.2 then
    ({ r.1 with
        totalCost := calculateCost r.1.totalInputTokens r.1.totalOutputTokens r.1.model },
      true)
  else r

/-- The conversation part of `ChatGPTTokenTracker.performMemoryCleanup`
(src/unnamed/part_000 lines 136-155): `messages = messages.slice(-50)` once
more than 100 messages are recorded; the cumulative totals stay untouched. -/
def performMemoryCleanup (c : Conversation) : Conversation :=
  if 100 < c.messages.length then
    { c with messages := c.messages.drop (c.messages.length - 50) }
  else c

/-- A closed conversation in the history, with its end timestamp. -/
structure ClosedConversation where
  conv : Conversation
  endTime : ℕ
deriving DecidableEq

/-- The boundary test of `ChatGPTTokenTracker.detectNewConversation`
(src/unnamed/part_000 lines 567-578); `observed` is the URL `/c/<id>` match. -/
def shouldStartNew (conv : Conversation) (observed : Option (List Char)) : Bool :=
  match observed with
  | some x => some x != conv.urlId
  | none => conv.urlId.isSome

/-- `ChatGPTTokenTracker.saveConversationToHistory`: push the closed
conversation with `endTime`, then keep only the last 100 entries. -/
def saveConversationToHistory (history : List ClosedConversation) (conv : Conversation)
    (now : ℕ) : List ClosedConversation :=
  let h := history ++ [⟨conv, now⟩]
  if 100 < h.length then h.drop (h.length - 100) else h

/-- `ChatGPTTokenTracker.detectCurrentModel`: scan the UI texts; the first one
whose detected model differs from the tokenizer default wins; otherwise fall
back to `settings.defaultModel`. -/
def detectCurrentModel (uiTexts : List (List Char)) (settingsDefault : String) : String :=
  match uiTexts with
  | [] => settingsDefault
  | t :: rest =>
    let m := detectModel (toLowerJS t)
    if m ≠ defaultModel then m else detectCurrentModel rest settingsDefault

/-- `ChatGPTTokenTracker.startNewConversation` (src/unnamed/part_000 lines
580-623), with URL id, visible UI texts and clock passed in from the
environment. -/
def startNewConversation (conv : Conversation) (history : List ClosedConversation)
    (urlId : Option (List Char)) (uiTexts : List (List Char)) (settingsDefault : String)
    (now : ℕ) : Conversation × List ClosedConversation :=
  let history' :=
    if conv.messages.length > 0 then saveConversationToHistory history conv now else history
  (⟨[], 0, 0, 0, detectCurrentModel uiTexts settingsDefault, urlId⟩, history')

/-- `ChatGPTTokenTracker.detectNewConversation`: on a boundary, close the
current conversation and start a fresh one carrying the observed URL id. -/
def detectNewConversation (conv : Conversation) (history : List ClosedConversation)
    (observed : Option (List Char)) (uiTexts : List (List Char)) (settingsDefault : String)
    (now : ℕ) : Conversation × List ClosedConversation :=
  if shouldStartNew conv observed then
    startNewConversation conv history observed uiTexts settingsDefault now
  else (conv, history)

/-- Sum of estimated tokens over the recorded messages carrying a given role. -/
def sumRole (role : List Char) (msgs : List Message) (model : String) : ℕ :=
  ((msgs.filter (fun m => m.role == role)).map (fun m => encode m.content model)).sum

/-- The spec's accounting invariant for a conversation (data-model section):
cumulative totals are the per-role sums of per-message estimates, and the cost
is the Cost Calculator of the totals. -/
def ConvInvariant (c : Conversation) : Prop :=
  c.totalInputTokens = sumRole "user".toList c.messages c.model ∧
  c.totalOutputTokens = sumRole "assistant".toList c.messages c.model ∧
  c.totalCost = calculateCost c.totalInputTokens c.totalOutputTokens c.model

/-- A fresh conversation as built by the tracker's constructor and by
`startNewConversation`: no messages, zero totals, zero cost. -/
def freshConversation (model : String) (urlId : Option (List Char)) : Conversation :=
  ⟨[], 0, 0, 0, model, urlId⟩

/-- Conversation states reachable through ingests alone. -/
inductive ReachableIngest : Conversation → Prop
  | base (model : String) (urlId : Option (List Char)) :
      ReachableIngest (freshConversation model urlId)
  | ingest (c : Conversation) (msgs : List Message) :
      ReachableIngest c → ReachableIngest (processMessages c msgs).1

/-- Conversation states reachable through ingests and memory-cleanup
maintenance steps — the tracker's operations on an open conversation. -/
inductive ReachableTracker : Conversation → Prop
  | base (model : String) (urlId : Option (List Char)) :
      ReachableTracker (freshConversation model urlId)
  | ingest (c : Conversation) (msgs : List Message) :
      ReachableTracker c → ReachableTracker (processMessages c msgs).1
  | cleanup (c : Conversation) : ReachableTracker c → ReachableTracker (performMemoryCleanup c)

/-- Word-start count: a scan over the characters counting positions that begin
a whitespace-delimited word.  Used to state claim C1's word count
independently of the `split`-based computation in the source. -/
def wsAux : Bool → List Char → ℕ
  | _, [] => 0
  | afterBoundary, c :: rest =>
    (if !jsSpace c && afterBoundary then 1 else 0) + wsAux (jsSpace c) rest

/-- Number of whitespace-delimited non-empty words, counted by word starts. -/
def wordStarts (l : List Char) : ℕ := wsAux true l

/-- Claim C1's formula for the estimator, stated from the claim's text:
`max(ceil(L / avgCharsPerToken), ceil(W * 1.3) + ceil(S * 0.5))` over the
normalized text, with `W` a word count and `S` a count of non-word
non-whitespace characters. -/
def estimateSpec (text : List Char) (model : String) : ℕ :=
  max
    (((collapse (jsTrim text)).length + ((getModelConfig model).avgCharsPerToken - 1)) /
      (getModelConfig model).avgCharsPerToken)
    ((13 * wordStarts (collapse (jsTrim text)) + 9) / 10 +
      ((collapse (jsTrim text)).countP (fun c => !jsWordChar c && !jsSpace c) + 1) / 2)

/-- Modelled from claim C8's description of the ingest: duplicate detection
computed against the recorded-message state as of the start of the call
(instead of the incrementally updated state the source uses). -/
def processMessagesInitDedup (conv : Conversation) (msgs : List Message) :
    Conversation × Bool :=
  let step : Conversation × Bool → Message → Conversation × Bool := fun st message =>
    let c := st.1
    if conv.messages.any (fun existing =>
        existing.content == message.content && existing.role == message.role) then st
    else
      let tokens := encode message.content c.model
      ({ c with
          messages := c.messages ++ [message]
          totalInputTokens :=
            if message.role = "user".toList then c.totalInputTokens + tokens
            else c.totalInputTokens
          totalOutputTokens :=
            if message.role = "assistant".toList then c.totalOutputTokens + tokens
            else c.totalOutputTokens },
        true)
  let r := msgs.foldl step (conv, false)
  if r.2 then
    ({ r.1 with
        totalCost := calculateCost r.1.totalInputTokens r.1.totalOutputTokens r.1.model },
      true)
  else r

/-- Concrete message used by witnesses and counterexamples. -/
def helloMessage : Message := ⟨"user".toList, "hello".toList⟩

/-- Concrete fresh conversation used by witnesses and counterexamples. -/
def conv0 : Conversation := freshConversation "gpt-4o" none

/-- A conversation that already records `helloMessage`. -/
def convDup : Conversation := (processMessages conv0 [helloMessage]).1

/-- Batch of 101 pairwise distinct user messages (distinct five-character
contents, above the extractor's minimum-length filter), enough to trigger the
memory-cleanup trimming. -/
def batch101 : List Message :=
  (List.range 101).map
    (fun i => ⟨"user".toList, ['a', 'a', 'a', 'a', Char.ofNat (1000 + i)]⟩)

/-- The state reached by ingesting `batch101` into a fresh conversation and
then running the memory cleanup. -/
def convTrimmed : Conversation := performMemoryCleanup (processMessages conv0 batch101).1

/-! ### Helper lemmas: cost and the ingest fold -/

lemma calculateCost_zero (model : String) : calculateCost 0 0 model = 0 := by
  simp [calculateCost]

lemma processStep_eq (st : Conversation × Bool) (m : Message) :
    processStep st m =
      if (st.1.messages.any fun existing =>
          existing.content == m.content && existing.role == m.role) = true then st
      else
        ({ messages := st.1.messages ++ [m]
           totalInputTokens :=
             if m.role = "user".toList then
               st.1.totalInputTokens + encode m.content st.1.model
             else st.1.totalInputTokens
           totalOutputTokens :=
             if m.role = "assistant".toList then
               st.1.totalOutputTokens + encode m.content st.1.model
             else st.1.totalOutputTokens
           totalCost := st.1.totalCost
           model := st.1.model
           urlId := st.1.urlId }, true) := rfl

lemma processStep_model (st : Conversation × Bool) (m : Message) :
    (processStep st m).1.model = st.1.model := by
  rw [processStep_eq]
  split <;> rfl

lemma processFold_model (msgs : List Message) (st : Conversation × Bool) :
    (msgs.foldl processStep st).1.model = st.1.model := by
  induction msgs generalizing st with
  | nil => rfl
  | cons m rest ih => rw [List.foldl_cons, ih, processStep_model]

lemma processStep_cases (st : Conversation × Bool) (m : Message) :
    processStep st m = st ∨
      ((processStep st m).1.messages = st.1.messages ++ [m] ∧ (processStep st m).2 = true) := by
  rw [processStep_eq]
  split
  · exact Or.inl rfl
  · exact Or.inr ⟨rfl, rfl⟩

lemma processStep_flag_false {st : Conversation × Bool} {m : Message}
    (h : (processStep st m).2 = false) : processStep st m = st := by
  rcases processStep_cases st m with h' | h'
  · exact h'
  · rw [h'.2] at h
    cases h

lemma processFold_flag_false :
    ∀ (msgs : List Message) (st : Conversation × Bool),
      (msgs.foldl processStep st).2 = false → msgs.foldl processStep st = st
  | [], _, _ => rfl
  | m :: rest, st, h => by
    rw [List.foldl_cons] at h ⊢
    have hrest := processFold_flag_false rest (processStep st m) h
    rw [hrest] at h
    rw [hrest, processStep_flag_false h]

lemma processMessages_not_changed {conv : Conversation} {msgs : List Message}
    (h : (processMessages conv msgs).2 = false) : (processMessages conv msgs).1 = conv := by
  unfold processMessages at h ⊢
  cases hr : (msgs.foldl processStep (conv, false)).2 with
  | true => simp [hr] at h
  | false => simp [hr, processFold_flag_false msgs (conv, false) hr]

lemma processMessages_messages (conv : Conversation) (msgs : List Message) :
    (processMessages conv msgs).1.messages = (msgs.foldl processStep (conv, false)).1.messages := by
  unfold processMessages
  cases hr : (msgs.foldl processStep (conv, false)).2 <;> simp [hr]

lemma sumRole_append (role : List Char) (l : List Message) (m : Message) (model : String) :
    sumRole role (l ++ [m]) model =
      sumRole role l model + (if m.role = role then encode m.content model else 0) := by
  by_cases h : m.role = role <;> simp [sumRole, List.filter_append, h]

lemma userRole_ne_assistantRole : ("user".toList : List Char) ≠ "assistant".toList := by decide

/-- The token-totals half of the accounting invariant. -/
def TotalsOk (c : Conversation) : Prop :=
  c.totalInputTokens = sumRole "user".toList c.messages c.model ∧
  c.totalOutputTokens = sumRole "assistant".toList c.messages c.model

lemma processStep_totals {st : Conversation × Bool} (m : Message) (h : TotalsOk st.1) :
    TotalsOk (processStep st m).1 := by
  obtain ⟨h1, h2⟩ := h
  rw [processStep_eq]
  split
  · exact ⟨h1, h2⟩
  · constructor
    · show (if m.role = "user".toList then _ else _) =
        sumRole "user".toList (st.1.messages ++ [m]) st.1.model
      rw [sumRole_append, ← h1]
      split <;> simp
    · show (if m.role = "assistant".toList then _ else _) =
        sumRole "assistant".toList (st.1.messages ++ [m]) st.1.model
      rw [sumRole_append, ← h2]
      split <;> simp

lemma processFold_totals :
    ∀ (msgs : List Message) (st : Conversation × Bool),
      TotalsOk st.1 → TotalsOk (msgs.foldl processStep st).1
  | [], _, h => h
  | m :: rest, st, h => processFold_totals rest (processStep st m) (processStep_totals m h)

/-! ### Helper lemmas: the chat fold -/

/-- The contribution of one array entry to `encodeChat`'s total. -/
def chatEntryTokens (model : String) (msg : Option ChatMessage) : ℕ :=
  match msg with
  | none => 0
  | some message =>
    4 + encode (message.role.getD []) model + encode (message.content.getD []) model +
      (match message.name with | some nm => encode nm model + 1 | none => 0)

lemma encode_nil (model : String) : encode [] model = 0 := rfl

lemma chatStep_eq (model : String) (total : ℕ) (msg : Option ChatMessage) :
    chatStep model total msg = total + chatEntryTokens model msg := by
  cases msg with
  | none => rfl
  | some message =>
    cases hr : message.role <;> cases hc : message.content <;> cases hn : message.name <;>
      simp [chatStep, chatEntryTokens, hr, hc, hn, encode_nil] <;> omega

lemma chatFold_eq (model : String) :
    ∀ (messages : List (Option ChatMessage)) (init : ℕ),
      messages.foldl (chatStep model) init = init + (messages.map (chatEntryTokens model)).sum
  | [], init => by simp
  | msg :: rest, init => by
    rw [List.foldl_cons, chatFold_eq model rest, chatStep_eq]
    simp [Nat.add_assoc]

/-! ### Claim C5: the cost calculator -/

/-- C5: for all non-negative integer token counts and every model id, the cost
is `(inputTokens/1000)*costPer1kInput + (outputTokens/1000)*costPer1kOutput`
of the looked-up profile (default profile on unknown id), with no rounding;
hence `cost 0 0 m = 0` and `cost (2a) (2b) m = 2 * cost a b m`. -/
theorem C5_cost_formula :
    (∀ (inputTokens outputTokens : ℕ) (model : String),
        calculateCost inputTokens outputTokens model =
          (inputTokens : ℚ) / 1000 * (getModelConfig model).costPer1kInput +
            (outputTokens : ℚ) / 1000 * (getModelConfig model).costPer1kOutput) ∧
    (∀ model : String, calculateCost 0 0 model = 0) ∧
    (∀ (a b : ℕ) (model : String),
        calculateCost (2 * a) (2 * b) model = 2 * calculateCost a b model) := by
  refine ⟨fun _ _ _ => rfl, calculateCost_zero, fun a b model => ?_⟩
  unfold calculateCost
  push_cast
  ring

/-! ### Claim C4: the chat-formatted estimator -/

/-- C4: `estimateChat` is 4 (whole-exchange overhead) plus, per message,
4 (role/structure) plus the estimates of role and content plus
`estimate(name) + 1` when a name is present, plus a final 2 — with exactly
these literal constants. -/
theorem C4_encodeChat_formula :
    ∀ (msgs : List ChatMessage) (model : String),
      encodeChat (msgs.map some) model =
        4 +
          (msgs.map (fun message =>
            4 + encode (message.role.getD []) model + encode (message.content.getD []) model +
              (match message.name with
               | some nm => encode nm model + 1
               | none => 0))).sum +
          2 := by
  intro msgs model
  rw [encodeChat, chatFold_eq, List.map_map]
  rfl

/-! ### Claim C7: invalid-input handling -/

/-- C7 counterexample: the claim says `detect` returns a model id rather than
throwing for every non-string input, but `detectModel` starts with
`text.toLowerCase()` and has no guard, so `null` raises a TypeError. -/
theorem C7_counterexample :
    ¬ ∀ x : JSVal, ∃ modelId : String, detectModelVal x = Except.ok modelId := by
  intro h
  obtain ⟨modelId, hm⟩ := h JSVal.jsNull
  simp [detectModelVal] at hm

/-- C7 amended: `estimate` returns 0 on every non-string (and never throws),
`estimateChat` returns 0 on a non-array and skips null entries (and never
throws), and `detect` returns a model id on every string — but on every
non-string input `detect` raises a TypeError instead of returning. -/
theorem C7_invalid_input (x : JSVal) (model : String) (s : List Char)
    (es : List (Option ChatMessage)) (hx : ∀ t : List Char, x ≠ JSVal.str t) :
    encodeVal x model = 0 ∧
    encodeChatTop none model = 0 ∧
    encodeChat (none :: es) model = encodeChat es model ∧
    detectModelVal (JSVal.str s) = Except.ok (detectModel s) ∧
    detectModelVal x = Except.error () := by
  refine ⟨?_, rfl, rfl, rfl, ?_⟩ <;>
    cases x <;> first | rfl | exact absurd rfl (hx _)

/-- C7 witness: the amended theorem evaluated at the concrete non-string
input `null`. -/
theorem C7_invalid_input_witness :
    encodeVal JSVal.jsNull "gpt-4o" = 0 ∧ detectModelVal JSVal.jsNull = Except.error () := by
  have h := C7_invalid_input JSVal.jsNull "gpt-4o" [] [] (fun t ht => JSVal.noConfusion ht)
  exact ⟨h.1, h.2.2.2.2⟩

/-! ### Helper lemmas: dedup predicate bridges and single-message ingests -/

lemma any_dup_false_of_not_exists {msgs : List Message} {m : Message}
    (h : ¬ ∃ ex ∈ msgs, ex.content = m.content ∧ ex.role = m.role) :
    (msgs.any fun existing =>
      existing.content == m.content && existing.role == m.role) = false := by
  simp only [Bool.eq_false_iff, ne_eq, List.any_eq_true, Bool.and_eq_true, beq_iff_eq]
  intro hx
  obtain ⟨ex, hex, hc, hr⟩ := hx
  exact h ⟨ex, hex, hc, hr⟩

lemma any_dup_true_of_exists {msgs : List Message} {m : Message}
    (h : ∃ ex ∈ msgs, ex.content = m.content ∧ ex.role = m.role) :
    (msgs.any fun existing =>
      existing.content == m.content && existing.role == m.role) = true := by
  simp only [List.any_eq_true, Bool.and_eq_true, beq_iff_eq]
  obtain ⟨ex, hex, hc, hr⟩ := h
  exact ⟨ex, hex, hc, hr⟩

lemma any_self_append (l : List Message) (m : Message) :
    ((l ++ [m]).any fun existing =>
      existing.content == m.content && existing.role == m.role) = true := by
  simp [List.any_append]

lemma processMessages_skip (conv : Conversation) (m : Message)
    (h : (conv.messages.any fun existing =>
        existing.content == m.content && existing.role == m.role) = true) :
    processMessages conv [m] = (conv, false) := by
  unfold processMessages
  rw [List.foldl_cons, List.foldl_nil, processStep_eq]
  simp [h]

lemma processMessages_single_fresh (conv : Conversation) (m : Message)
    (h : (conv.messages.any fun existing =>
        existing.content == m.content && existing.role == m.role) = false) :
    processMessages conv [m] =
      ({ messages := conv.messages ++ [m]
         totalInputTokens :=
           if m.role = "user".toList then conv.totalInputTokens + encode m.content conv.model
           else conv.totalInputTokens
         totalOutputTokens :=
           if m.role = "assistant".toList then
             conv.totalOutputTokens + encode m.content conv.model
           else conv.totalOutputTokens
         totalCost :=
           calculateCost
             (if m.role = "user".toList then conv.totalInputTokens + encode m.content conv.model
              else conv.totalInputTokens)
             (if m.role = "assistant".toList then
               conv.totalOutputTokens + encode m.content conv.model
              else conv.totalOutputTokens)
             conv.model
         model := conv.model
         urlId := conv.urlId }, true) := by
  unfold processMessages
  rw [List.foldl_cons, List.foldl_nil, processStep_eq]
  simp [h]

/-! ### Claim C2: dedup behaviour of a single-message ingest -/

/-- C2 counterexample: the claim quantifies over every conversation, but when
`conv` already records `m` the first of the two calls already reports
`changed = false`, not `changed = true`. -/
theorem C2_counterexample :
    ¬ ∀ (conv : Conversation) (m : Message),
        (processMessages conv [m]).2 = true ∧
          (processMessages (processMessages conv [m]).1 [m]).2 = false := by
  intro h
  have h1 := (h convDup helloMessage).1
  have h2 : (processMessages convDup [helloMessage]).2 = false := by decide
  rw [h2] at h1
  cases h1

/-- C2 amended: provided no message with `m`'s `(role, content)` key is already
recorded in `conv`, ingesting `[m]` twice yields `changed = true` then
`changed = false`; `m`'s estimated tokens go to the total of its role exactly
once; a candidate is skipped whenever an exact `(role, content)` match exists
anywhere in the recorded sequence; and whenever `changed = false` the
conversation is returned unmodified (its cost not recomputed). -/
theorem C2_dedup_ingest (conv : Conversation) (m : Message)
    (hfresh : ¬ ∃ ex ∈ conv.messages, ex.content = m.content ∧ ex.role = m.role) :
    (processMessages conv [m]).2 = true ∧
    processMessages (processMessages conv [m]).1 [m] = ((processMessages conv [m]).1, false) ∧
    (m.role = "user".toList →
      (processMessages conv [m]).1.totalInputTokens =
          conv.totalInputTokens + encode m.content conv.model ∧
        (processMessages conv [m]).1.totalOutputTokens = conv.totalOutputTokens) ∧
    (m.role = "assistant".toList →
      (processMessages conv [m]).1.totalOutputTokens =
          conv.totalOutputTokens + encode m.content conv.model ∧
        (processMessages conv [m]).1.totalInputTokens = conv.totalInputTokens) ∧
    (∀ (conv' : Conversation) (m' : Message),
        (∃ ex ∈ conv'.messages, ex.content = m'.content ∧ ex.role = m'.role) →
          processMessages conv' [m'] = (conv', false)) ∧
    (∀ (conv' : Conversation) (msgs : List Message),
        (processMessages conv' msgs).2 = false → (processMessages conv' msgs).1 = conv') := by
  have hany := any_dup_false_of_not_exists hfresh
  rw [processMessages_single_fresh conv m hany]
  refine ⟨rfl, ?_, ?_, ?_,
    fun conv' m' h => processMessages_skip conv' m' (any_dup_true_of_exists h),
    fun conv' msgs h => processMessages_not_changed h⟩
  · exact processMessages_skip _ m (any_self_append conv.messages m)
  · intro hu
    have hna : m.role ≠ "assistant".toList := by
      rw [hu]; exact userRole_ne_assistantRole
    exact ⟨if_pos hu, if_neg hna⟩
  · intro ha
    have hnu : m.role ≠ "user".toList := by
      rw [ha]; intro hcontra; exact userRole_ne_assistantRole hcontra.symm
    exact ⟨if_pos ha, if_neg hnu⟩

/-- C2 witness: the amended theorem at a fresh conversation and a concrete
user message. -/
theorem C2_dedup_ingest_witness :
    (processMessages conv0 [helloMessage]).2 = true ∧
      processMessages (processMessages conv0 [helloMessage]).1 [helloMessage] =
        ((processMessages conv0 [helloMessage]).1, false) := by
  have h := C2_dedup_ingest conv0 helloMessage (by decide)
  exact ⟨h.1, h.2.1⟩

/-! ### Claim C8: batch order and batch-internal dedup -/

lemma processFold_shape :
    ∀ (msgs : List Message) (st : Conversation × Bool),
      ∃ added, (msgs.foldl processStep st).1.messages = st.1.messages ++ added ∧
        List.Sublist added msgs
  | [], st => ⟨[], by simp, List.Sublist.slnil⟩
  | m :: rest, st => by
    rcases processStep_cases st m with hc | hc
    · rw [List.foldl_cons, hc]
      obtain ⟨added, heq, hsub⟩ := processFold_shape rest st
      exact ⟨added, heq, hsub.cons m⟩
    · rw [List.foldl_cons]
      obtain ⟨added, heq, hsub⟩ := processFold_shape rest (processStep st m)
      refine ⟨m :: added, ?_, hsub.cons₂ m⟩
      rw [heq, hc.1, List.append_assoc]
      rfl

/-- C8 counterexample: a batch holding two identical copies of a not-yet
recorded message.  Under the source's ingest the second copy is judged against
the state already holding the first copy and is skipped (one recorded
message); dedup against the start-of-call state, as the claim describes it,
would record both copies. -/
theorem C8_counterexample :
    (processMessages conv0 [helloMessage, helloMessage]).1.messages.length = 1 ∧
      (processMessagesInitDedup conv0 [helloMessage, helloMessage]).1.messages.length = 2 := by
  constructor <;> decide

/-- C8 amended: within one ingest call messages are processed in caller order
(the newly recorded messages form an in-order subsequence appended to the
recorded sequence), but duplicate detection runs against the incrementally
updated state: in a batch of two identical copies of a fresh message the
second copy is judged against a state already holding the first, so exactly
one copy is recorded. -/
theorem C8_batch_order :
    (∀ (conv : Conversation) (msgs : List Message),
        ∃ added, (processMessages conv msgs).1.messages = conv.messages ++ added ∧
          List.Sublist added msgs) ∧
    (∀ (conv : Conversation) (m : Message),
        (¬ ∃ ex ∈ conv.messages, ex.content = m.content ∧ ex.role = m.role) →
          (processMessages conv [m, m]).1.messages = conv.messages ++ [m]) := by
  constructor
  · intro conv msgs
    obtain ⟨added, heq, hsub⟩ := processFold_shape msgs (conv, false)
    rw [processMessages_messages]
    exact ⟨added, heq, hsub⟩
  · intro conv m hfresh
    have hany := any_dup_false_of_not_exists hfresh
    have h1 : (processStep (conv, false) m).1.messages = conv.messages ++ [m] := by
      rw [processStep_eq]
      simp [hany]
    have h2 : processStep (processStep (conv, false) m) m = processStep (conv, false) m := by
      rw [processStep_eq (processStep (conv, false) m) m, h1]
      simp [any_self_append]
    rw [processMessages_messages, List.foldl_cons, List.foldl_cons, List.foldl_nil, h2, h1]

/-- C8 witness: the amended theorem's batch-internal dedup at a concrete fresh
conversation. -/
theorem C8_batch_order_witness :
    (processMessages conv0 [helloMessage, helloMessage]).1.messages =
      conv0.messages ++ [helloMessage] :=
  C8_batch_order.2 conv0 helloMessage (by decide)

/-! ### Claim C3: the accounting invariant -/

set_option maxRecDepth 40000 in
/-- C3 counterexample: a reachable state violating the invariant.  Ingesting
101 distinct user messages and then running the memory cleanup leaves the
cumulative totals at the sum over all 101 ingested messages while only the
last 50 remain recorded, so the cumulative input count no longer equals the
per-message sum over the recorded sequence. -/
theorem C3_counterexample :
    ReachableTracker convTrimmed ∧ ¬ ConvInvariant convTrimmed := by
  constructor
  · exact ReachableTracker.cleanup _
      (ReachableTracker.ingest _ batch101 (ReachableTracker.base "gpt-4o" none))
  · intro h
    exact absurd h.1 (by decide)

/-- C3 amended: the invariant — totals are the per-role sums of per-message
estimates over the recorded sequence and the cost is the Cost Calculator of
the totals — holds for every state reachable by ingests alone; the memory
cleanup preserves totals, cost and model but may drop recorded messages. -/
theorem C3_invariant (c : Conversation) (hc : ReachableIngest c) :
    ConvInvariant c ∧
      ∀ c' : Conversation,
        (performMemoryCleanup c').totalInputTokens = c'.totalInputTokens ∧
          (performMemoryCleanup c').totalOutputTokens = c'.totalOutputTokens ∧
          (performMemoryCleanup c').totalCost = c'.totalCost ∧
          (performMemoryCleanup c').model = c'.model := by
  constructor
  · induction hc with
    | base model urlId => exact ⟨rfl, rfl, (calculateCost_zero model).symm⟩
    | ingest c msgs hrc ih =>
      rcases hr : msgs.foldl processStep (c, false) with ⟨c1, flag⟩
      have heq : processMessages c msgs =
          if flag then
            ({ c1 with
                totalCost := calculateCost c1.totalInputTokens c1.totalOutputTokens c1.model },
              true)
          else (c1, flag) := by
        unfold processMessages
        rw [hr]
      cases flag
      · have h0 := processFold_flag_false msgs (c, false) (by rw [hr])
        rw [hr] at h0
        injection h0 with h1 _
        rw [heq, if_neg (by simp)]
        rw [h1]
        exact ih
      · have htot := processFold_totals msgs (c, false) ⟨ih.1, ih.2.1⟩
        rw [hr] at htot
        rw [heq, if_pos rfl]
        exact ⟨htot.1, htot.2, rfl⟩
  · intro c'
    unfold performMemoryCleanup
    split <;> exact ⟨rfl, rfl, rfl, rfl⟩

/-- C3 witness: the amended theorem at a concrete fresh conversation. -/
theorem C3_invariant_witness :
    ConvInvariant (freshConversation "gpt-4o" none) ∧
      (performMemoryCleanup conv0).totalCost = conv0.totalCost := by
  have h := C3_invariant (freshConversation "gpt-4o" none) (ReachableIngest.base "gpt-4o" none)
  exact ⟨h.1, (h.2 conv0).2.2.1⟩

/-! ### Claim C6: model detection -/

lemma ofNat_toNat_lowercase (n : ℕ) (h1 : 97 ≤ n) (h2 : n ≤ 122) :
    (Char.ofNat n).toNat = n := by
  interval_cases n <;> decide

lemma toLower_idem (c : Char) : Char.toLower (Char.toLower c) = Char.toLower c := by
  simp only [Char.toLower]
  by_cases h : c.toNat ≥ 65 ∧ c.toNat ≤ 90
  · rw [if_pos h]
    have hv : (Char.ofNat (c.toNat + 32)).toNat = c.toNat + 32 :=
      ofNat_toNat_lowercase _ (by omega) (by omega)
    rw [if_neg (by omega)]
  · rw [if_neg h, if_neg h]

lemma toLowerJS_idem (l : List Char) : toLowerJS (toLowerJS l) = toLowerJS l := by
  induction l with
  | nil => rfl
  | cons c rest ih =>
    show Char.toLower (Char.toLower c) :: toLowerJS (toLowerJS rest) = _
    rw [toLower_idem, ih]
    rfl

lemma detectModel_eq (text : List Char) :
    detectModel text =
      if jsIncludes (toLowerJS text) "gpt-4o".toList then "gpt-4o"
      else if jsIncludes (toLowerJS text) "gpt-4-turbo".toList ||
          jsIncludes (toLowerJS text) "gpt-4 turbo".toList then "gpt-4-turbo"
      else if jsIncludes (toLowerJS text) "gpt-4".toList then "gpt-4"
      else if jsIncludes (toLowerJS text) "gpt-3.5".toList ||
          jsIncludes (toLowerJS text) "gpt-3.5-turbo".toList then "gpt-3.5-turbo"
      else defaultModel := rfl

/-- C6: `detect` is case-insensitive (`detect t = detect (lowercase t)`, so
`detect "GPT-4O" = detect "gpt-4o"`); whenever a specific marker (`gpt-4o`,
`gpt-4-turbo` or `gpt-4 turbo`) occurs in the lowercased text the result is
never the generic `gpt-4` (in particular `detect "gpt-4 turbo" = gpt-4-turbo`,
although that text contains the generic marker `gpt-4`); and when no marker
matches, `detect` returns the default model id. -/
theorem C6_detect (t : List Char) :
    (detectModel t = detectModel (toLowerJS t)) ∧
    (detectModel "GPT-4O".toList = detectModel "gpt-4o".toList) ∧
    ((jsIncludes (toLowerJS t) "gpt-4o".toList = true ∨
        jsIncludes (toLowerJS t) "gpt-4-turbo".toList = true ∨
        jsIncludes (toLowerJS t) "gpt-4 turbo".toList = true) →
      detectModel t ≠ "gpt-4") ∧
    (detectModel "gpt-4 turbo".toList = "gpt-4-turbo") ∧
    ((jsIncludes (toLowerJS t) "gpt-4o".toList = false ∧
        jsIncludes (toLowerJS t) "gpt-4-turbo".toList = false ∧
        jsIncludes (toLowerJS t) "gpt-4 turbo".toList = false ∧
        jsIncludes (toLowerJS t) "gpt-4".toList = false ∧
        jsIncludes (toLowerJS t) "gpt-3.5".toList = false ∧
        jsIncludes (toLowerJS t) "gpt-3.5-turbo".toList = false) →
      detectModel t = defaultModel) := by
  refine ⟨?_, by decide, ?_, by decide, ?_⟩
  · rw [detectModel_eq, detectModel_eq, toLowerJS_idem]
  · intro h
    rw [detectModel_eq]
    split_ifs with h1 h2 h3 h4 <;> try decide
    have h2' := (by simpa using h2 :
      jsIncludes (toLowerJS t) "gpt-4-turbo".toList = false ∧
        jsIncludes (toLowerJS t) "gpt-4 turbo".toList = false)
    rcases h with h | h | h
    · exact absurd h h1
    · rw [h2'.1] at h
      cases h
    · rw [h2'.2] at h
      cases h
  · rintro ⟨n1, n2, n3, n4, n5, n6⟩
    rw [detectModel_eq, n1, n2, n3, n4, n5, n6]
    rfl

/-- C6 witness: the specificity and default clauses at concrete inputs. -/
theorem C6_detect_witness :
    detectModel "use GPT-4 Turbo now".toList ≠ "gpt-4" ∧
      detectModel "hello there".toList = defaultModel := by
  refine ⟨(C6_detect "use GPT-4 Turbo now".toList).2.2.1 ?_, ?_⟩
  · exact Or.inr (Or.inr (by decide))
  · exact (C6_detect "hello there".toList).2.2.2.2 (by decide)

/-! ### Claim C10: conversation boundaries -/

lemma getLast?_drop_of_lt :
    ∀ (l : List ClosedConversation) (k : ℕ), k < l.length → (l.drop k).getLast? = l.getLast?
  | _, 0, _ => rfl
  | [], k + 1, h => by cases h
  | a :: l', k + 1, h => by
    rw [List.drop_succ_cons]
    have hlt : k < l'.length := by simpa using h
    rw [getLast?_drop_of_lt l' k hlt]
    match l', hlt with
    | b :: l'', _ => rw [List.getLast?_cons_cons]

lemma saveConversationToHistory_eq (history : List ClosedConversation)
    (conv : Conversation) (now : ℕ) :
    saveConversationToHistory history conv now =
      if 100 < (history ++ [(⟨conv, now⟩ : ClosedConversation)]).length then
        (history ++ [(⟨conv, now⟩ : ClosedConversation)]).drop
          ((history ++ [(⟨conv, now⟩ : ClosedConversation)]).length - 100)
      else history ++ [(⟨conv, now⟩ : ClosedConversation)] := rfl

lemma saveConversationToHistory_getLast (history : List ClosedConversation)
    (conv : Conversation) (now : ℕ) :
    (saveConversationToHistory history conv now).getLast? = some ⟨conv, now⟩ := by
  rw [saveConversationToHistory_eq]
  split
  · rw [getLast?_drop_of_lt]
    · exact List.getLast?_concat _
    · have : 0 < (history ++ [(⟨conv, now⟩ : ClosedConversation)]).length := by simp
      omega
  · exact List.getLast?_concat _

/-- C10: a boundary is signalled exactly when an observed correlation id
differs from the stored one, or none is observed while one was stored (so for
stored "abc" and observed "xyz" it is signalled); on a boundary with at least
one recorded message the conversation is appended to the history with an end
timestamp set, and a fresh conversation is created with zeroed totals, the
observed correlation id, and the model chosen by the detector over the
visible UI texts, falling back to the configured default when detection
fails. -/
theorem C10_boundary :
    (∀ (conv : Conversation) (observed : Option (List Char)),
        shouldStartNew conv observed = true ↔
          ((∃ x, observed = some x ∧ conv.urlId ≠ some x) ∨
            (observed = none ∧ conv.urlId ≠ none))) ∧
    (∀ (conv : Conversation) (history : List ClosedConversation)
        (observed : Option (List Char)) (uiTexts : List (List Char))
        (settingsDefault : String) (now : ℕ),
        shouldStartNew conv observed = true → conv.messages ≠ [] →
          (detectNewConversation conv history observed uiTexts settingsDefault now).2.getLast? =
              some ⟨conv, now⟩ ∧
            (detectNewConversation conv history observed uiTexts settingsDefault now).1 =
              freshConversation (detectCurrentModel uiTexts settingsDefault) observed) ∧
    (∀ (uiTexts : List (List Char)) (settingsDefault : String),
        (∀ t ∈ uiTexts, detectModel (toLowerJS t) = defaultModel) →
          detectCurrentModel uiTexts settingsDefault = settingsDefault) := by
  refine ⟨?_, ?_, ?_⟩
  · intro conv observed
    cases observed with
    | some x =>
      simp only [shouldStartNew, bne_iff_ne, ne_eq]
      constructor
      · intro h
        exact Or.inl ⟨x, rfl, fun hc => h hc.symm⟩
      · rintro (⟨y, hy, hne⟩ | ⟨hcontra, _⟩)
        · cases hy
          exact fun hc => hne hc.symm
        · cases hcontra
    | none =>
      simp only [shouldStartNew, Option.isSome_iff_ne_none, ne_eq]
      constructor
      · intro h
        exact Or.inr ⟨by trivial, h⟩
      · rintro (⟨y, hy, _⟩ | ⟨_, hne⟩)
        · cases hy
        · exact hne
  · intro conv history observed uiTexts settingsDefault now hnew hmsg
    unfold detectNewConversation
    rw [if_pos hnew]
    unfold startNewConversation
    have hlen : conv.messages.length > 0 := List.length_pos.mpr hmsg
    rw [if_pos hlen]
    exact ⟨saveConversationToHistory_getLast history conv now, rfl⟩
  · intro uiTexts settingsDefault h
    induction uiTexts with
    | nil => rfl
    | cons t rest ih =>
      unfold detectCurrentModel
      rw [if_neg (by simpa using h t (List.mem_cons_self t rest))]
      exact ih (fun u hu => h u (List.mem_cons_of_mem t hu))

/-- Concrete conversation with a stored correlation id and one recorded
message, used by the C10 witness. -/
def convAbc : Conversation :=
  ⟨[helloMessage], 2, 0, calculateCost 2 0 "gpt-4o", "gpt-4o", some "abc".toList⟩

/-- C10 witness: the theorem applied to `convAbc` (stored id "abc") at the
observed id "xyz", an empty history and no detectable UI text. -/
theorem C10_boundary_witness :
    shouldStartNew convAbc (some "xyz".toList) = true ∧
      (detectNewConversation convAbc [] (some "xyz".toList) [] "gpt-4o" 42).2.getLast? =
        some ⟨convAbc, 42⟩ ∧
      (detectNewConversation convAbc [] (some "xyz".toList) [] "gpt-4o" 42).1 =
        freshConversation "gpt-4o" (some "xyz".toList) := by
  have h1 : shouldStartNew convAbc (some "xyz".toList) = true :=
    (C10_boundary.1 convAbc (some "xyz".toList)).mpr
      (Or.inl ⟨"xyz".toList, rfl, by decide⟩)
  have h2 := C10_boundary.2.1 convAbc [] (some "xyz".toList) [] "gpt-4o" 42 h1 (by decide)
  exact ⟨h1, h2.1, h2.2⟩

/-! ### Helper lemmas: word counting -/

lemma words_wsAux (l : List Char) :
    ((l.splitOnP jsSpace).filter (fun w => !w.isEmpty)).length = wsAux true l ∧
    (((l.splitOnP jsSpace).drop 1).filter (fun w => !w.isEmpty)).length = wsAux false l := by
  induction l with
  | nil => constructor <;> rfl
  | cons c r ih =>
    obtain ⟨ih1, ih2⟩ := ih
    cases hc : jsSpace c
    case false =>
      obtain ⟨w, rest, hw⟩ := List.exists_cons_of_ne_nil (List.splitOnP_ne_nil jsSpace r)
      rw [hw] at ih2
      simp only [List.drop_succ_cons, List.drop_zero] at ih2
      constructor
      · simp [List.splitOnP_cons, hc, hw, wsAux, ih2]
        omega
      · simp [List.splitOnP_cons, hc, hw, wsAux, ih2]
    case true =>
      constructor
      · simp [List.splitOnP_cons, hc, wsAux, ih1]
      · simp [List.splitOnP_cons, hc, wsAux, ih1]

lemma words_length (l : List Char) : (words l).length = wordStarts l :=
  (words_wsAux l).1

lemma encode_eq (text : List Char) (model : String) :
    encode text model =
      if text.isEmpty then 0
      else
        max
          (((collapse (jsTrim text)).length + ((getModelConfig model).avgCharsPerToken - 1)) /
            (getModelConfig model).avgCharsPerToken)
          ((13 * (words (collapse (jsTrim text))).length + 9) / 10 +
            (((collapse (jsTrim text)).filter
                (fun c => !jsWordChar c && !jsSpace c)).length + 1) / 2) := rfl

/-! ### Claim C1: the estimator formula -/

lemma avg_eq_four (model : String) : (getModelConfig model).avgCharsPerToken = 4 := by
  unfold getModelConfig modelConfigs
  split_ifs <;> rfl

/-- C1: for every string and model id, the estimate is
`max(ceil(L / avgCharsPerToken), ceil(W * 1.3) + ceil(S * 0.5))` over the
trimmed and whitespace-collapsed text, with the profile looked up by model id
and falling back to the default `gpt-4o` profile; in particular
`estimate("Hello, world!", "gpt-4o") = 4`. -/
theorem C1_estimate_formula :
    (∀ (text : List Char) (model : String), encode text model = estimateSpec text model) ∧
      encode "Hello, world!".toList "gpt-4o" = 4 := by
  constructor
  · intro text model
    by_cases h : text.isEmpty = true
    · have htext : text = [] := by
        cases text
        · rfl
        · cases h
      subst htext
      rw [encode_eq, if_pos h]
      unfold estimateSpec
      rw [avg_eq_four]
      rfl
    · rw [encode_eq, if_neg h]
      unfold estimateSpec
      rw [words_length, List.countP_eq_length_filter]
  · decide

/-! ### Helper lemmas: appending a non-whitespace character -/

lemma collapse_cons_nonspace {c : Char} (hc : jsSpace c = false) (rest : List Char) :
    collapse (c :: rest) = c :: collapse rest := by
  cases rest <;> simp [collapse, hc]

lemma collapse_cons_space_cons_space {b d : Char} (hb : jsSpace b = true)
    (hd : jsSpace d = true) (rest : List Char) :
    collapse (b :: d :: rest) = collapse (d :: rest) := by
  simp [collapse, hb, hd]

lemma collapse_cons_space_cons_nonspace {b d : Char} (hb : jsSpace b = true)
    (hd : jsSpace d = false) (rest : List Char) :
    collapse (b :: d :: rest) = ' ' :: collapse (d :: rest) := by
  simp [collapse, hb, hd]

lemma collapse_append_nonspace {c : Char} (hc : jsSpace c = false) :
    ∀ u : List Char, collapse (u ++ [c]) = collapse u ++ [c]
  | [] => by simp [collapse, hc]
  | a :: v => by
    cases ha : jsSpace a
    case false =>
      rw [List.cons_append, collapse_cons_nonspace ha, collapse_cons_nonspace ha,
        collapse_append_nonspace hc v]
      rfl
    case true =>
      match v with
      | [] => simp [collapse, ha, hc]
      | d :: v' =>
        cases hd : jsSpace d
        case false =>
          rw [List.cons_append, List.cons_append,
            collapse_cons_space_cons_nonspace ha hd,
            collapse_cons_space_cons_nonspace ha hd, ← List.cons_append]
          rw [show (d :: v' ++ [c] : List Char) = (d :: v') ++ [c] from rfl,
            collapse_append_nonspace hc (d :: v')]
          rfl
        case true =>
          rw [List.cons_append, List.cons_append,
            collapse_cons_space_cons_space ha hd,
            collapse_cons_space_cons_space ha hd]
          rw [show (d :: (v' ++ [c]) : List Char) = (d :: v') ++ [c] from rfl,
            collapse_append_nonspace hc (d :: v')]

lemma rtrim_append_nonspace {c : Char} (hc : jsSpace c = false) (u : List Char) :
    rtrim (u ++ [c]) = u ++ [c] := by
  simp [rtrim, List.reverse_append, List.dropWhile_cons, hc]

lemma rtrim_append_space {c : Char} (hc : jsSpace c = true) (u : List Char) :
    rtrim (u ++ [c]) = rtrim u := by
  simp [rtrim, List.reverse_append, List.dropWhile_cons, hc]

lemma ltrim_append_nonspace {c : Char} (hc : jsSpace c = false) :
    ∀ t : List Char, ltrim (t ++ [c]) = ltrim t ++ [c]
  | [] => by simp [ltrim, List.dropWhile_cons, hc]
  | a :: t' => by
    have ih := ltrim_append_nonspace hc t'
    simp only [ltrim] at ih
    cases ha : jsSpace a <;> simp [ltrim, List.dropWhile_cons, ha, ih]

lemma jsTrim_append_nonspace {c : Char} (hc : jsSpace c = false) (t : List Char) :
    jsTrim (t ++ [c]) = ltrim t ++ [c] := by
  rw [jsTrim, ltrim_append_nonspace hc, rtrim_append_nonspace hc]

/-- The list ends in a whitespace character. -/
def endsInSpace (l : List Char) : Bool := l.getLast?.elim false jsSpace

lemma endsInSpace_concat (l : List Char) (a : Char) :
    endsInSpace (l ++ [a]) = jsSpace a := by
  simp [endsInSpace, List.getLast?_concat]

lemma endsInSpace_cons_cons (a b : Char) (l : List Char) :
    endsInSpace (a :: b :: l) = endsInSpace (b :: l) := by
  simp [endsInSpace, List.getLast?_cons_cons]

lemma collapse_append_space {a : Char} (ha : jsSpace a = true) :
    ∀ w : List Char,
      collapse (w ++ [a]) = if endsInSpace w = true then collapse w else collapse w ++ [' ']
  | [] => by simp [collapse, ha, endsInSpace]
  | b :: w' => by
    cases hb : jsSpace b
    case false =>
      match w' with
      | [] => simp [collapse, hb, ha, endsInSpace]
      | d :: w'' =>
        rw [List.cons_append, collapse_cons_nonspace hb,
          show (d :: w'' ++ [a] : List Char) = (d :: w'') ++ [a] from rfl,
          collapse_append_space ha (d :: w''), endsInSpace_cons_cons,
          collapse_cons_nonspace hb]
        cases he : endsInSpace (d :: w'') <;> simp
    case true =>
      match w' with
      | [] => simp [collapse, hb, ha, endsInSpace]
      | d :: w'' =>
        cases hd : jsSpace d
        case false =>
          rw [List.cons_append, List.cons_append,
            collapse_cons_space_cons_nonspace hb hd,
            show (d :: (w'' ++ [a]) : List Char) = (d :: w'') ++ [a] from rfl,
            collapse_append_space ha (d :: w''), endsInSpace_cons_cons,
            collapse_cons_space_cons_nonspace hb hd]
          cases he : endsInSpace (d :: w'') <;> simp
        case true =>
          rw [List.cons_append, List.cons_append,
            collapse_cons_space_cons_space hb hd,
            show (d :: (w'' ++ [a]) : List Char) = (d :: w'') ++ [a] from rfl,
            collapse_append_space ha (d :: w''), endsInSpace_cons_cons,
            collapse_cons_space_cons_space hb hd]

lemma collapse_rtrim (v : List Char) :
    collapse v = collapse (rtrim v) ++ (if endsInSpace v = true then [' '] else []) := by
  induction v using List.reverseRecOn with
  | nil => simp [rtrim, endsInSpace]
  | append_singleton w a ih =>
    cases ha : jsSpace a
    case false =>
      rw [rtrim_append_nonspace ha, endsInSpace_concat, ha]
      simp
    case true =>
      rw [collapse_append_space ha w, rtrim_append_space ha, endsInSpace_concat, ha, if_pos rfl]
      cases he : endsInSpace w
      · rw [he] at ih
        simp only [Bool.false_eq_true, if_false, List.append_nil] at ih
        rw [if_neg (by simp), ih]
      · rw [he] at ih
        simp only [if_true] at ih
        rw [if_pos rfl, ih]

lemma normalized_append {c : Char} (hc : jsSpace c = false) (t : List Char) :
    collapse (jsTrim (t ++ [c])) =
      collapse (jsTrim t) ++ (if endsInSpace (ltrim t) = true then [' '] else []) ++ [c] := by
  rw [jsTrim_append_nonspace hc, collapse_append_nonspace hc, collapse_rtrim (ltrim t)]
  rw [show jsTrim t = rtrim (ltrim t) from rfl]

/-- The boundary state of the word-start scan after reading a list. -/
def stAfter (b : Bool) : List Char → Bool
  | [] => b
  | c :: rest => stAfter (jsSpace c) rest

lemma wsAux_append :
    ∀ (x : List Char) (b : Bool) (y : List Char),
      wsAux b (x ++ y) = wsAux b x + wsAux (stAfter b x) y
  | [], b, y => by simp [wsAux, stAfter]
  | c :: x', b, y => by
    simp only [List.cons_append, wsAux, stAfter, List.append_eq]
    rw [wsAux_append x' (jsSpace c) y]
    omega

/-! ### Claim C9: weak monotonicity of the estimator -/

/-- C9: appending a non-whitespace character to a string never decreases the
estimated token count, for every model. -/
theorem C9_append_monotone (t : List Char) (c : Char) (model : String)
    (hc : jsSpace c = false) : encode t model ≤ encode (t ++ [c]) model := by
  rw [encode_eq t, encode_eq (t ++ [c])]
  have hne : (t ++ [c]).isEmpty = false := by cases t <;> rfl
  rw [hne]
  simp only [Bool.false_eq_true, if_false]
  cases ht : t.isEmpty
  case true => simp
  case false =>
    simp only [Bool.false_eq_true, if_false]
    rw [normalized_append hc t]
    apply max_le_max
    · apply Nat.div_le_div_right
      have : (collapse (jsTrim t)).length ≤
          ((collapse (jsTrim t) ++ (if endsInSpace (ltrim t) = true then [' '] else [])) ++
            [c]).length := by
        simp [List.length_append]
      omega
    · apply Nat.add_le_add
      · apply Nat.div_le_div_right
        rw [words_length, words_length, wordStarts, wordStarts, List.append_assoc,
          wsAux_append]
        omega
      · apply Nat.div_le_div_right
        simp only [List.filter_append, List.length_append]
        omega

/-- C9 witness: the theorem at a concrete string, character and model. -/
theorem C9_append_monotone_witness :
    jsSpace 'x' = false ∧
      encode "ab cd ".toList "gpt-4o" ≤ encode ("ab cd ".toList ++ ['x']) "gpt-4o" :=
  ⟨by decide, C9_append_monotone "ab cd ".toList 'x' "gpt-4o" (by decide)⟩
